import Mathlib

/-!
Shallow embedding of the hacker-stories application core
(reducer-driven stories state machine, query-URL construction and
decomposition, recent-search derivation, and the column sort engine),
translated from `src/unnamed/part_001` (App.tsx with pagination).
Strings manipulated character-wise (URLs) are modelled as `List Char`;
opaque record fields are modelled as `String`.
-/

/-- A story record (`type Story`, part_001 lines 9-16). -/
structure Story where
  objectID : String
  url : String
  title : String
  author : String
  num_comments : Nat
  points : Int
deriving DecidableEq

/-- The reducer state (`type StoriesState`, part_001 lines 41-46). -/
structure StoriesState where
  data : List Story
  page : Nat
  isLoading : Bool
  isError : Bool
deriving DecidableEq

/-- The action union (`type StoriesAction`, part_001 lines 48-73).
The extra `unknownAction` constructor stands for any runtime action object
whose `type` string is none of the four recognized tags (TypeScript does not
enforce the union at runtime; the reducer's `default` branch handles it). -/
inductive StoriesAction where
  | storiesFetchInit
  | storiesFetchSuccess (list : List Story) (page : Nat)
  | storiesFetchFailure
  | removeStory (payload : Story)
  | unknownAction (tag : String)
deriving DecidableEq

/-- The reducer's `default: throw new Error()` outcome. -/
inductive ReducerError where
  | invalidAction
deriving DecidableEq

/-- Function `storiesReducer` (part_001 lines 75-110).  The `throw` in the `default`
branch is modelled as `Except.error`. -/
def storiesReducer (state : StoriesState) (action : StoriesAction) :
    Except ReducerError StoriesState :=
  match action with
  | .storiesFetchInit =>
      .ok { state with isLoading := true, isError := false }
  | .storiesFetchSuccess list page =>
      .ok { state with
              isLoading := false
              isError := false
              data := if page = 0 then list else state.data ++ list
              page := page }
  | .storiesFetchFailure =>
      .ok { state with isLoading := false, isError := true }
  | .removeStory payload =>
      .ok { state with
              data := state.data.filter
                (fun story => payload.objectID != story.objectID) }
  | .unknownAction _ => .error .invalidAction

/-- The initial reducer state (part_001 lines 240-245). -/
def initialStoriesState : StoriesState :=
  { data := [], page := 0, isLoading := false, isError := false }

/-- States reachable from the initial state through successful reducer
transitions (the dispatch loop of `App`). -/
inductive ReachableState : StoriesState → Prop where
  | init : ReachableState initialStoriesState
  | step {s s' : StoriesState} {a : StoriesAction} :
      ReachableState s → storiesReducer s a = .ok s' → ReachableState s'

/-- A concrete story used to instantiate hypotheses of proved theorems. -/
def storyA : Story :=
  { objectID := "a", url := "https://x/a", title := "ta", author := "wa",
    num_comments := 3, points := 5 }

/-- A second concrete story, with a distinct identifier and equal points. -/
def storyB : Story :=
  { objectID := "b", url := "https://x/b", title := "tb", author := "wb",
    num_comments := 4, points := 5 }

/-- A concrete two-story state with distinct identifiers. -/
def stateAB : StoriesState :=
  { data := [storyA, storyB], page := 0, isLoading := false, isError := false }

/-- Stable insertion used to model lodash `sortBy`: `x` goes in front of the
first element `y` with `le x y`, so inserting a later input element never
jumps in front of an equal-key earlier one. -/
def insertSorted (le : Story → Story → Bool) (x : Story) :
    List Story → List Story
  | [] => [x]
  | y :: ys => if le x y then x :: y :: ys else y :: insertSorted le x ys

/-- Model of lodash `sortBy` (part_001 line 3): a stable ascending sort by the
given key order.  lodash documents `sortBy` as a stable sort; any stable
ascending sort computes the same list, here stable insertion sort. -/
def sortByStable (le : Story → Story → Bool) : List Story → List Story
  | [] => []
  | x :: xs => insertSorted le x (sortByStable le xs)

/-- The sort-key union used by the `List` component (`SORTS`, part_001
lines 434-440). -/
inductive SortKey where
  | NONE
  | TITLE
  | AUTHOR
  | COMMENT
  | POINT
deriving DecidableEq

/-- The `SORTS` dictionary (part_001 lines 434-440): ascending stable sort by
the column key, with COMMENT and POINT reversed so the default display is
descending. -/
def SORTS : SortKey → List Story → List Story
  | .NONE => fun list => list
  | .TITLE => fun list => sortByStable (fun a b => a.title ≤ b.title) list
  | .AUTHOR => fun list => sortByStable (fun a b => a.author ≤ b.author) list
  | .COMMENT => fun list =>
      (sortByStable (fun a b => a.num_comments ≤ b.num_comments) list).reverse
  | .POINT => fun list =>
      (sortByStable (fun a b => a.points ≤ b.points) list).reverse

/-- Function `sortedList` as computed by the `List` component (part_001 lines 458-461):
the chosen sort function, reversed once more when the reverse toggle is on. -/
def sortedList (list : List Story) (sortKey : SortKey) (isReverse : Bool) :
    List Story :=
  if isReverse then (SORTS sortKey list).reverse else SORTS sortKey list

/-- Constant `API_BASE` (part_001 line 201). -/
def API_BASE : List Char := "https://hn.algolia.com/api/v1".toList

/-- Constant `API_SEARCH` (part_001 line 202). -/
def API_SEARCH : List Char := "/search".toList

/-- Constant `PARAM_SEARCH` (part_001 line 203). -/
def PARAM_SEARCH : List Char := "query=".toList

/-- Constant `PARAM_PAGE` (part_001 line 204). -/
def PARAM_PAGE : List Char := "page=".toList

/-- The decimal rendering of the page number produced by the `${page}`
template interpolation. -/
def pageChars (page : Nat) : List Char := (Nat.repr page).toList

/-- Function `getUrl` (part_001 lines 206-207): template-string concatenation. -/
def getUrl (searchTerm : List Char) (page : Nat) : List Char :=
  API_BASE ++ API_SEARCH ++ ['?'] ++ PARAM_SEARCH ++ searchTerm ++
    ['&'] ++ PARAM_PAGE ++ pageChars page

/-- Index of the last occurrence of `c`, or `none` — the positive half of
JavaScript `String.prototype.lastIndexOf`. -/
def lastIdx? (c : Char) : List Char → Option Nat
  | [] => none
  | x :: xs =>
    match lastIdx? c xs with
    | some i => some (i + 1)
    | none => if x = c then some 0 else none

/-- JavaScript `lastIndexOf`: last index of `c`, `-1` when absent. -/
def lastIndexOf (c : Char) (s : List Char) : Int :=
  match lastIdx? c s with
  | some i => (i : Int)
  | none => -1

/-- JavaScript `String.prototype.substring`: negative indices clamp to 0,
indices beyond the length clamp to the length, and the two indices are
swapped when given out of order. -/
def jsSubstring (s : List Char) (start finish : Int) : List Char :=
  let a := (min (max start 0) (s.length : Int)).toNat
  let b := (min (max finish 0) (s.length : Int)).toNat
  (s.take (max a b)).drop (min a b)

/-- JavaScript `String.prototype.replace` with a string pattern: replaces the
first occurrence only (and, like JS, prepends the replacement when the
pattern is empty); the input is returned unchanged when the pattern is
absent. -/
def replaceFirst (pat repl : List Char) : List Char → List Char
  | [] => if pat.isEmpty then repl else []
  | x :: xs =>
    if pat.isPrefixOf (x :: xs) then repl ++ (x :: xs).drop pat.length
    else x :: replaceFirst pat repl xs

/-- Function `extractSearchTerm` (part_001 lines 209-212). -/
def extractSearchTerm (url : List Char) : List Char :=
  replaceFirst PARAM_SEARCH []
    (jsSubstring url (lastIndexOf '?' url + 1) (lastIndexOf '&' url))

/-- The body of the `reduce` in `getLastSearches` (part_001 lines 216-230),
with the element index threaded explicitly.  `result[result.length - 1]`
is `getLast?`; on an empty accumulator JavaScript yields `undefined`, which
compares unequal to every string, so the term is appended. -/
def collapseLoop (idx : Nat) (result : List (List Char)) :
    List (List Char) → List (List Char)
  | [] => result
  | url :: rest =>
    let searchTerm := extractSearchTerm url
    if idx = 0 then collapseLoop (idx + 1) (result ++ [searchTerm]) rest
    else
      match result.getLast? with
      | some previousSearchTerm =>
        if searchTerm = previousSearchTerm then
          collapseLoop (idx + 1) result rest
        else collapseLoop (idx + 1) (result ++ [searchTerm]) rest
      | none => collapseLoop (idx + 1) (result ++ [searchTerm]) rest

/-- Function `getLastSearches` (part_001 lines 214-233): collapse the extracted terms,
then `.slice(-6)` (the last at most six) and `.slice(0, -1)` (drop the
last). -/
def getLastSearches (urls : List (List Char)) : List (List Char) :=
  let collapsed := collapseLoop 0 [] urls
  (collapsed.drop (collapsed.length - 6)).dropLast

/-- Spec-side helper for `collapseAdjacent`: collapse a sequence against the
previously kept term. -/
def collapseFrom (prev : List Char) : List (List Char) → List (List Char)
  | [] => []
  | t :: ts => if t = prev then collapseFrom prev ts else t :: collapseFrom t ts

/-- Spec-side collapse of consecutive duplicates: a term equal to its
immediate predecessor is dropped; non-adjacent repeats are kept. -/
def collapseAdjacent : List (List Char) → List (List Char)
  | [] => []
  | t :: ts => t :: collapseFrom t ts

/-- Function `deriveRecentTerms` written from the spec's words, to be compared with
`getLastSearches`: decompose each URL to its term, collapse consecutive
duplicates only, take the last 6 of the collapsed sequence, and drop the
final (current) element. -/
def deriveRecentTermsSpec (urls : List (List Char)) : List (List Char) :=
  let collapsed := collapseAdjacent (urls.map extractSearchTerm)
  (collapsed.drop (collapsed.length - 6)).dropLast

/-- Filtering by "identifier differs from r's" keeps a list in which no
identifier matches r's. -/
theorem filter_keep_of_no_match (r : Story) (l : List Story)
    (h : ∀ s ∈ l, s.objectID ≠ r.objectID) :
    l.filter (fun story => r.objectID != story.objectID) = l := by
  apply List.filter_eq_self.mpr
  intro a ha
  simp only [bne_iff_ne, ne_eq, decide_not]
  simp only [decide_eq_true_eq] at *
  exact fun e => (h a ha) e.symm

/-- Claim C1: a FETCH_SUCCESS(list, page) transition clears both flags, sets
`currentPage` to `page`, and replaces `items` with `list` when `page = 0`
while appending `list` to the previous items (order preserved, no
deduplication) when `page > 0`. -/
theorem fetchSuccess_spec (state : StoriesState) (list : List Story) (page : Nat) :
    storiesReducer state (.storiesFetchSuccess list page) =
      .ok { data := if page = 0 then list else state.data ++ list
            page := page
            isLoading := false
            isError := false } := by
  rfl

/-- Claim C7: a FETCH_FAILURE transition sets `isLoading := false` and
`isError := true` and leaves `items` and `currentPage` exactly as they were. -/
theorem fetchFailure_spec (state : StoriesState) :
    storiesReducer state .storiesFetchFailure =
      .ok { data := state.data
            page := state.page
            isLoading := false
            isError := true } := by
  rfl

/-- Claim C8: an action whose type tag is not one of the four recognized ones
makes the reducer signal a fatal error; it never returns a state silently. -/
theorem unknownAction_fatal (state : StoriesState) (tag : String) :
    storiesReducer state (.unknownAction tag) = .error .invalidAction ∧
    ∀ s' : StoriesState, storiesReducer state (.unknownAction tag) ≠ .ok s' := by
  exact ⟨rfl, fun s' h => by simp [storiesReducer] at h⟩

/-- Claim C3: in every state reachable from the initial state through reducer
transitions, `isLoading` and `isError` are never both true. -/
theorem flags_never_both (s : StoriesState) (h : ReachableState s) :
    ¬(s.isLoading = true ∧ s.isError = true) := by
  induction h with
  | init => simp [initialStoriesState]
  | step hr heq ih =>
    rename_i s₁ s₂ a
    cases a with
    | storiesFetchInit =>
        simp only [storiesReducer, Except.ok.injEq] at heq
        subst heq; simp
    | storiesFetchSuccess list page =>
        simp only [storiesReducer, Except.ok.injEq] at heq
        subst heq; simp
    | storiesFetchFailure =>
        simp only [storiesReducer, Except.ok.injEq] at heq
        subst heq; simp
    | removeStory payload =>
        simp only [storiesReducer, Except.ok.injEq] at heq
        subst heq; simpa using ih
    | unknownAction tag =>
        simp [storiesReducer] at heq

/-- Witness for C3: the invariant instantiated at the initial state. -/
theorem flags_never_both_witness :
    ¬(initialStoriesState.isLoading = true ∧
      initialStoriesState.isError = true) :=
  flags_never_both initialStoriesState ReachableState.init

/-- Claim C2: when no two items share an identifier, REMOVE_ITEM(r) removes
exactly the one entry whose `objectID` equals `r`'s (however its other fields
compare), and is a no-op on the state when no entry has that identifier. -/
theorem removeStory_unique (state : StoriesState) (r : Story)
    (hnodup : state.data.Pairwise (fun a b => a.objectID ≠ b.objectID)) :
    (∀ pre e post, state.data = pre ++ e :: post → e.objectID = r.objectID →
        storiesReducer state (.removeStory r) =
          .ok { state with data := pre ++ post }) ∧
    ((∀ s ∈ state.data, s.objectID ≠ r.objectID) →
        storiesReducer state (.removeStory r) = .ok state) := by
  constructor
  · intro pre e post hsplit hid
    have hfil : state.data.filter (fun story => r.objectID != story.objectID) =
        pre ++ post := by
      rw [hsplit]
      rw [hsplit] at hnodup
      rw [List.pairwise_append] at hnodup
      obtain ⟨-, h2, h3⟩ := hnodup
      rw [List.pairwise_cons] at h2
      obtain ⟨h4, -⟩ := h2
      have hpre : ∀ s ∈ pre, s.objectID ≠ r.objectID := by
        intro s hs
        have := h3 s hs e (List.mem_cons_self e post)
        rwa [hid] at this
      have hpost : ∀ s ∈ post, s.objectID ≠ r.objectID := by
        intro s hs hc
        exact h4 s hs (by rw [hid, hc])
      rw [List.filter_append, List.filter_cons]
      have he : (r.objectID != e.objectID) = false := by
        simp [bne_iff_ne, hid]
      rw [he]
      simp only [Bool.false_eq_true, if_false]
      rw [filter_keep_of_no_match r pre hpre, filter_keep_of_no_match r post hpost]
    simp only [storiesReducer, hfil]
  · intro habs
    simp only [storiesReducer, filter_keep_of_no_match r state.data habs]

/-- Witness for C2: removing `storyA` from the concrete two-story state leaves
exactly `storyB`. -/
theorem removeStory_unique_witness :
    storiesReducer stateAB (.removeStory storyA) =
      .ok { stateAB with data := [storyB] } := by
  have h := removeStory_unique stateAB storyA (by decide)
  exact h.1 [] storyA [storyB] rfl rfl

/-- Claim C9: REMOVE_ITEM is idempotent — applying it a second time with the
same record leaves the state produced by the first application unchanged. -/
theorem removeStory_idempotent (s : StoriesState) (r : Story) (s' : StoriesState)
    (h : storiesReducer s (.removeStory r) = .ok s') :
    storiesReducer s' (.removeStory r) = .ok s' := by
  simp only [storiesReducer, Except.ok.injEq] at h
  subst h
  have hkeep : ∀ a ∈ s.data.filter (fun story => r.objectID != story.objectID),
      (fun story => r.objectID != story.objectID) a = true :=
    fun a ha => (List.mem_filter.mp ha).2
  simp only [storiesReducer, List.filter_eq_self.mpr hkeep]

/-- Witness for C9: the second removal of `storyA` leaves the once-reduced
state untouched. -/
theorem removeStory_idempotent_witness :
    storiesReducer { stateAB with data := [storyB] } (.removeStory storyA) =
      .ok { stateAB with data := [storyB] } :=
  removeStory_idempotent stateAB storyA { stateAB with data := [storyB] }
    (by rfl)

/-- Claim C10: REMOVE_ITEM(r) removes every entry carrying r's identifier
(afterwards no item has it), keeps the surviving items in their relative
order (the result is a sublist keeping every non-matching entry), and leaves
`page`, `isLoading` and `isError` unchanged. -/
theorem removeStory_all (s : StoriesState) (r : Story) :
    ∃ d' : List Story,
      storiesReducer s (.removeStory r) = .ok { s with data := d' } ∧
      (∀ e ∈ d', e.objectID ≠ r.objectID) ∧
      d'.Sublist s.data ∧
      (∀ e ∈ s.data, e.objectID ≠ r.objectID → e ∈ d') := by
  refine ⟨s.data.filter (fun story => r.objectID != story.objectID), rfl, ?_,
    List.filter_sublist _, ?_⟩
  · intro e he hc
    have hmem := (List.mem_filter.mp he).2
    rw [bne_iff_ne] at hmem
    exact hmem hc.symm
  · intro e he hne
    refine List.mem_filter.mpr ⟨he, ?_⟩
    rw [bne_iff_ne]
    exact fun hc => hne hc.symm

/-- Witness for C10: the characterization instantiated at the concrete
two-story state and `storyA`. -/
theorem removeStory_all_witness :
    ∃ d' : List Story,
      storiesReducer stateAB (.removeStory storyA) =
        .ok { stateAB with data := d' } ∧
      (∀ e ∈ d', e.objectID ≠ storyA.objectID) ∧
      d'.Sublist stateAB.data ∧
      (∀ e ∈ stateAB.data, e.objectID ≠ storyA.objectID → e ∈ d') :=
  removeStory_all stateAB storyA

/-- Insertion by ascending points keeps, for each score, the equal-score
entries in order: the subsequence with a given score gains `x` at its front
exactly when `x` has that score, because every entry `x` jumps over has a
strictly smaller score. -/
theorem filter_insertSorted_points (x : Story) (l : List Story) (p : Int) :
    (insertSorted (fun a b => a.points ≤ b.points) x l).filter
        (fun s => s.points == p) =
      if x.points == p then x :: l.filter (fun s => s.points == p)
      else l.filter (fun s => s.points == p) := by
  induction l with
  | nil => simp [insertSorted, List.filter_cons]
  | cons y ys ih =>
    rw [insertSorted]
    by_cases hxy : x.points ≤ y.points
    · rw [if_pos (by simpa using hxy)]
      by_cases hxp : x.points = p
      · simp [List.filter_cons, hxp]
      · simp [List.filter_cons, hxp]
    · rw [if_neg (by simpa using hxy)]
      rw [List.filter_cons, ih]
      by_cases hxp : x.points = p
      · have hyp : ¬(y.points = p) := by omega
        simp [List.filter_cons, hxp, hyp]
      · simp [List.filter_cons, hxp]

/-- Stability of the points sort: for every score, the entries with that
score appear in the sorted list in their input order. -/
theorem filter_sortByStable_points (l : List Story) (p : Int) :
    (sortByStable (fun a b => a.points ≤ b.points) l).filter
        (fun s => s.points == p) =
      l.filter (fun s => s.points == p) := by
  induction l with
  | nil => rfl
  | cons x xs ih =>
    rw [sortByStable, filter_insertSorted_points, ih, List.filter_cons]

/-- Claim C6 (amended): the sort engine is stable, and toggling POINT is
symmetric when the engine is fed the original list both times, as the `List`
component does: `sortedList l POINT true` is the exact reverse of
`sortedList l POINT false`, and it preserves the relative input order of the
items of every equal point score.  (Feeding the first result back in instead
reverses equal-point runs; see the counterexample.) -/
theorem sort_point_toggle (l : List Story) :
    sortedList l .POINT true = (sortedList l .POINT false).reverse ∧
    ∀ p : Int, (sortedList l .POINT true).filter (fun s => s.points == p) =
      l.filter (fun s => s.points == p) := by
  constructor
  · simp [sortedList]
  · intro p
    simp only [sortedList, if_pos, SORTS, List.reverse_reverse]
    exact filter_sortByStable_points l p

/-- Counterexample for C6 as frozen: re-sorting the result of
`sortedList · POINT false` with the reverse toggle on does not restore the
relative order of equal-point items — on two distinct stories with equal
points it yields them in reversed order. -/
theorem sort_point_refeed_counterexample :
    sortedList (sortedList [storyA, storyB] .POINT false) .POINT true =
        [storyB, storyA] ∧
    (sortedList (sortedList [storyA, storyB] .POINT false) .POINT true).filter
        (fun s => s.points == storyA.points) ≠
      [storyA, storyB].filter (fun s => s.points == storyA.points) ∧
    storyA.points = storyB.points ∧ storyA ≠ storyB := by
  refine ⟨by decide, by decide, by decide, by decide⟩

/-- The indexed fold of `getLastSearches` with a non-zero index and a
non-empty accumulator appends exactly the spec-side collapse of the remaining
extracted terms, seeded with the last kept term. -/
theorem collapseLoop_go (us : List (List Char)) :
    ∀ (acc : List (List Char)) (prev : List Char) (i : Nat),
      acc.getLast? = some prev →
      collapseLoop (i + 1) acc us =
        acc ++ collapseFrom prev (us.map extractSearchTerm) := by
  induction us with
  | nil => intro acc prev i h; simp [collapseLoop, collapseFrom]
  | cons u us ih =>
    intro acc prev i h
    rw [collapseLoop]
    simp only [Nat.succ_ne_zero, if_false, h]
    by_cases heq : extractSearchTerm u = prev
    · rw [if_pos heq, ih acc prev (i + 1) h]
      simp [collapseFrom, heq]
    · rw [if_neg heq,
        ih (acc ++ [extractSearchTerm u]) (extractSearchTerm u) (i + 1)
          (List.getLast?_concat acc)]
      simp [collapseFrom, heq]

/-- The source's reduce equals the spec-side collapse of the extracted
terms. -/
theorem collapseLoop_eq (urls : List (List Char)) :
    collapseLoop 0 [] urls = collapseAdjacent (urls.map extractSearchTerm) := by
  cases urls with
  | nil => rfl
  | cons u us =>
    rw [collapseLoop]
    simp only [if_pos rfl, List.nil_append]
    rw [collapseLoop_go us [extractSearchTerm u] (extractSearchTerm u) 0 rfl]
    simp [collapseAdjacent]

/-- Claim C4: `getLastSearches` equals the spec pipeline — extract each term,
collapse consecutive duplicates only, take the last 6, drop the final
element — its result never exceeds 5 entries (oldest first by construction),
and on the URLs of terms a,a,b,b,b,c (page 0) it returns [a, b]. -/
theorem getLastSearches_spec :
    (∀ urls : List (List Char),
       getLastSearches urls = deriveRecentTermsSpec urls ∧
       (getLastSearches urls).length ≤ 5) ∧
    getLastSearches
        ((["a", "a", "b", "b", "b", "c"].map String.toList).map
          (fun t => getUrl t 0)) =
      ["a", "b"].map String.toList := by
  refine ⟨fun urls => ⟨?_, ?_⟩, by decide⟩
  · simp only [getLastSearches, deriveRecentTermsSpec, collapseLoop_eq]
  · simp only [getLastSearches]
    rw [List.length_dropLast, List.length_drop]
    omega

/-- Appending a list free of `c` on the right does not change the last index
of `c`. -/
theorem lastIdx?_append_of_none (c : Char) (xs ys : List Char)
    (h : lastIdx? c ys = none) :
    lastIdx? c (xs ++ ys) = lastIdx? c xs := by
  induction xs with
  | nil => simpa using h
  | cons x xs ih => simp only [List.cons_append, lastIdx?, List.append_eq, ih]

/-- When the right part contains `c`, the last index of `c` in an append is
the right part's last index shifted by the left length. -/
theorem lastIdx?_append_of_some (c : Char) (xs ys : List Char) (j : Nat)
    (h : lastIdx? c ys = some j) :
    lastIdx? c (xs ++ ys) = some (xs.length + j) := by
  induction xs with
  | nil => simpa using h
  | cons x xs ih =>
    simp only [List.cons_append, lastIdx?, List.append_eq, ih,
      List.length_cons, Option.some.injEq]
    omega

/-- A list not containing `c` has no last index of `c`. -/
theorem lastIdx?_eq_none (c : Char) (l : List Char) (h : c ∉ l) :
    lastIdx? c l = none := by
  induction l with
  | nil => rfl
  | cons x xs ih =>
    rw [lastIdx?, ih (fun hm => h (List.mem_cons_of_mem x hm))]
    rw [if_neg ?hne]
    case hne =>
      intro hx
      subst hx
      exact h (List.mem_cons_self x xs)

/-- Above its 16 named digits, `Nat.digitChar` is the fallback character. -/
theorem digitChar_star (k : Nat) (hk : 16 ≤ k) : Nat.digitChar k = '*' := by
  unfold Nat.digitChar
  repeat rw [if_neg (by omega)]

/-- No digit character is an ampersand or a question mark. -/
theorem digitChar_ne (k : Nat) :
    Nat.digitChar k ≠ '&' ∧ Nat.digitChar k ≠ '?' := by
  by_cases hk : k < 16
  · interval_cases k <;> exact ⟨by decide, by decide⟩
  · rw [digitChar_star k (by omega)]
    exact ⟨by decide, by decide⟩

/-- Every character produced by `Nat.toDigitsCore` is from the accumulator or
a digit character. -/
theorem mem_toDigitsCore (b : Nat) (fuel : Nat) :
    ∀ (n : Nat) (ds : List Char) (c : Char),
      c ∈ Nat.toDigitsCore b fuel n ds →
        c ∈ ds ∨ ∃ k, c = Nat.digitChar k := by
  induction fuel with
  | zero => intro n ds c h; exact Or.inl h
  | succ fuel ih =>
    intro n ds c h
    simp only [Nat.toDigitsCore] at h
    split at h
    · rcases List.mem_cons.mp h with h1 | h1
      · exact Or.inr ⟨n % b, h1⟩
      · exact Or.inl h1
    · rcases ih (n / b) (Nat.digitChar (n % b) :: ds) c h with h1 | h1
      · rcases List.mem_cons.mp h1 with h2 | h2
        · exact Or.inr ⟨n % b, h2⟩
        · exact Or.inl h2
      · exact Or.inr h1

/-- The decimal rendering of a page number contains neither an ampersand nor
a question mark. -/
theorem pageChars_safe (page : Nat) :
    '&' ∉ pageChars page ∧ '?' ∉ pageChars page := by
  have key : ∀ c ∈ pageChars page, c ≠ '&' ∧ c ≠ '?' := by
    intro c hc
    have hmem : c ∈ ([] : List Char) ∨ ∃ k, c = Nat.digitChar k :=
      mem_toDigitsCore 10 (page + 1) page [] c hc
    rcases hmem with h1 | ⟨k, hk⟩
    · simp at h1
    · exact hk ▸ digitChar_ne k
  exact ⟨fun hm => (key '&' hm).1 rfl, fun hm => (key '?' hm).2 rfl⟩

/-- Replacing a non-empty pattern by nothing at the very front of a list
strips exactly the pattern. -/
theorem replaceFirst_of_pat_pre (q : Char) (qs t : List Char) :
    replaceFirst (q :: qs) [] ((q :: qs) ++ t) = t := by
  rw [List.cons_append, replaceFirst]
  rw [if_pos (by rw [← List.cons_append]; exact
    List.isPrefixOf_iff_prefix.mpr (List.prefix_append (q :: qs) t))]
  rw [← List.cons_append, List.nil_append]
  exact List.drop_left' rfl

/-- On in-range, ordered Nat indices, `jsSubstring` is take-then-drop. -/
theorem jsSubstring_of_le (s : List Char) (a b : Nat) (hab : a ≤ b)
    (hb : b ≤ s.length) :
    jsSubstring s (a : Int) (b : Int) = (s.take b).drop a := by
  simp only [jsSubstring]
  have h1 : (min (max (a : Int) 0) ((s.length : Nat) : Int)).toNat = a := by omega
  have h2 : (min (max (b : Int) 0) ((s.length : Nat) : Int)).toNat = b := by omega
  rw [h1, h2, Nat.max_eq_right hab, Nat.min_eq_left hab]

/-- Extraction round-trip over any URL of the shape
`pre ++ term ++ '&' :: tail` whose fixed 43-character head carries its only
question mark at index 36 followed by the search marker, provided the term
has no question mark and the tail no ampersand or question mark. -/
theorem extract_roundtrip_general (pre tail term : List Char)
    (hqm_pre : lastIdx? '?' pre = some 36)
    (hdrop_pre : pre.drop 37 = "query=".toList)
    (hplen : pre.length = 43)
    (hterm : '?' ∉ term)
    (htail_amp : '&' ∉ tail) (htail_qm : '?' ∉ tail) :
    extractSearchTerm ((pre ++ term) ++ ('&' :: tail)) = term := by
  have hamp : lastIdx? '&' ((pre ++ term) ++ ('&' :: tail)) =
      some (43 + term.length) := by
    have h1 : lastIdx? '&' ('&' :: tail) = some 0 := by
      rw [lastIdx?, lastIdx?_eq_none '&' tail htail_amp]
      simp
    rw [lastIdx?_append_of_some '&' (pre ++ term) ('&' :: tail) 0 h1]
    simp [List.length_append, hplen]
  have hqm : lastIdx? '?' ((pre ++ term) ++ ('&' :: tail)) = some 36 := by
    rw [List.append_assoc]
    have h1 : lastIdx? '?' (term ++ '&' :: tail) = none := by
      apply lastIdx?_eq_none
      intro hm
      rcases List.mem_append.mp hm with hm | hm
      · exact hterm hm
      · rcases List.mem_cons.mp hm with hm | hm
        · exact absurd hm (by decide)
        · exact htail_qm hm
    rw [lastIdx?_append_of_none '?' pre (term ++ '&' :: tail) h1, hqm_pre]
  have hamp' : lastIndexOf '&' ((pre ++ term) ++ ('&' :: tail)) =
      ((43 + term.length : Nat) : Int) := by
    rw [lastIndexOf, hamp]
  have hqm' : lastIndexOf '?' ((pre ++ term) ++ ('&' :: tail)) =
      ((36 : Nat) : Int) := by
    rw [lastIndexOf, hqm]
  have hlen : ((pre ++ term) ++ ('&' :: tail)).length =
      44 + term.length + tail.length := by
    simp [List.length_append, hplen]
    omega
  rw [extractSearchTerm, hamp', hqm']
  have h37 : ((36 : Nat) : Int) + 1 = ((37 : Nat) : Int) := by norm_num
  rw [h37, jsSubstring_of_le _ 37 (43 + term.length) (by omega) (by omega)]
  have htake : (((pre ++ term) ++ ('&' :: tail)).take (43 + term.length)) =
      pre ++ term :=
    List.take_left' (by simp [List.length_append, hplen])
  rw [htake, List.drop_append_of_le_length (by omega), hdrop_pre]
  exact replaceFirst_of_pat_pre 'q' "uery=".toList term

/-- Claim C5 (amended): for every search term containing no question mark and
every page, `extractSearchTerm` recovers the term verbatim from the URL built
by `getUrl`.  (A term containing a question mark is truncated; see the
counterexample.) -/
theorem extract_getUrl (term : List Char) (page : Nat) (h : '?' ∉ term) :
    extractSearchTerm (getUrl term page) = term := by
  have hC : ((API_BASE ++ API_SEARCH) ++ ['?']) ++ PARAM_SEARCH =
      "https://hn.algolia.com/api/v1/search?query=".toList := by decide
  have hurl : getUrl term page =
      ("https://hn.algolia.com/api/v1/search?query=".toList ++ term) ++
        ('&' :: (PARAM_PAGE ++ pageChars page)) := by
    rw [getUrl, ← hC]
    simp [List.append_assoc]
  rw [hurl]
  apply extract_roundtrip_general
  · decide
  · decide
  · decide
  · exact h
  · intro hm
    rcases List.mem_append.mp hm with hm | hm
    · exact absurd hm (by decide)
    · exact (pageChars_safe page).1 hm
  · intro hm
    rcases List.mem_append.mp hm with hm | hm
    · exact absurd hm (by decide)
    · exact (pageChars_safe page).2 hm

/-- Counterexample for C5 as frozen: the term a?b, which contains a question
mark, is not recovered from its URL — extraction yields b. -/
theorem extract_getUrl_counterexample :
    extractSearchTerm (getUrl "a?b".toList 0) = "b".toList ∧
    "b".toList ≠ "a?b".toList := by
  exact ⟨by decide, by decide⟩

/-- Witness for C5 (amended): the round trip at term react, page 0. -/
theorem extract_getUrl_witness :
    extractSearchTerm (getUrl "react".toList 0) = "react".toList :=
  extract_getUrl "react".toList 0 (by decide)
